import Mathlib

/-!
Verification of the merge-and-reconciliation engine and translation-strategy
layer of the Multilingual i18n generator.

The TypeScript source is shallowly embedded: JavaScript plain objects
(`Record<string, string>`) become association lists with unique keys in
insertion order, nested translation trees become an inductive type, and the
algorithms (`flattenObject`, `mergeTranslations`, `translateMissingKeys`,
`lookupInMemory`, `calculateSimilarity`, `translate`, `handleApiError`,
`translateToMorse`) are translated line by line.  JavaScript truthiness of a
string (`""` is falsy) is modelled explicitly wherever the source relies on
it.  Asynchronous network backends are modelled as an oracle parameter
`backend : String → Except String String` (a returned value or a thrown
error message); everything else is executable.
-/

namespace Multilingual

/-- A JavaScript `Record<string, string>`: an association list in insertion
order.  All records produced by the embedded code have pairwise-distinct
keys, mirroring the fact that a JS object cannot hold a key twice. -/
abbrev FlatMap := List (String × String)

/-- `m[k]` read: the value stored at `k`, if any. -/
def getF : FlatMap → String → Option String
  | [], _ => none
  | p :: rest, k => if p.1 = k then some p.2 else getF rest k

/-- `m[k] = v` write: JS semantics — update in place if the key exists
(keeping its position), otherwise append at the end. -/
def setF : FlatMap → String → String → FlatMap
  | [], k, v => [(k, v)]
  | p :: rest, k, v => if p.1 = k then (k, v) :: rest else p :: setF rest k v

/-- The keys of a record, in insertion order. -/
def keysF (m : FlatMap) : List String := m.map (·.1)

/-- JS truthiness of `m[k]`: the key is present and its value is a nonempty
string (`""` is falsy in JavaScript). -/
def truthyF (m : FlatMap) (k : String) : Bool :=
  match getF m k with
  | some v => v ≠ ""
  | none => false

/-- A value in a translation tree: a string leaf or a nested object
(source type `TranslationData`: `{ [key]: string | TranslationData }`). -/
inductive TValue where
  | str : String → TValue
  | obj : List (String × TValue) → TValue

/-- A translation tree: the entries of the top-level object. -/
abbrev TData := List (String × TValue)

/-- The dotted-path child key: `prefix ? `${prefix}.${key}` : key`
(an empty prefix is falsy in JS). -/
def childKey (pre k : String) : String :=
  if pre = "" then k else pre ++ "." ++ k

mutual
/-- One step of `flattenObject`: flatten a single value under the dotted
path `pre`, accumulating assignments into `acc` in source order
(string leaves execute `result[newKey] = value`, nested objects are
flattened recursively and merged with `Object.assign`). -/
def flattenVal (pre : String) (acc : FlatMap) : TValue → FlatMap
  | .str s => setF acc pre s
  | .obj kvs => flattenList pre acc kvs

/-- Flatten the entries of one object level in order. -/
def flattenList (pre : String) (acc : FlatMap) : List (String × TValue) → FlatMap
  | [] => acc
  | (k, v) :: rest => flattenList pre (flattenVal (childKey pre k) acc v) rest
end

/-- `I18nGenerator.flattenObject`: flatten a nested tree to a record from
dotted key to string. -/
def flattenObject (t : TData) : FlatMap :=
  flattenList "" [] t

/-- First loop of `mergeTranslations`: walk the entries of `flatNew`; a key
also truthy in `flatExisting` keeps the existing value under
`preserveExisting` (otherwise takes the new one) and counts as unchanged;
any other key takes the new value and counts as new. -/
def mergeLoop1 (preserve : Bool) (flatExisting : FlatMap) :
    List (String × String) → FlatMap → Nat → Nat → FlatMap × Nat × Nat
  | [], merged, newKeys, unchangedKeys => (merged, newKeys, unchangedKeys)
  | (key, value) :: rest, merged, newKeys, unchangedKeys =>
    if truthyF flatExisting key then
      let kept := if preserve then (getF flatExisting key).getD "" else value
      mergeLoop1 preserve flatExisting rest (setF merged key kept) newKeys (unchangedKeys + 1)
    else
      mergeLoop1 preserve flatExisting rest (setF merged key value) (newKeys + 1) unchangedKeys

/-- Second loop of `mergeTranslations`: walk the keys of `flatExisting`;
a key not truthy in `flatNew` counts as removed and is written back into
the output under `preserveExisting`. -/
def mergeLoop2 (preserve : Bool) (flatNew : FlatMap) :
    List (String × String) → FlatMap → Nat → FlatMap × Nat
  | [], merged, removedKeys => (merged, removedKeys)
  | (key, value) :: rest, merged, removedKeys =>
    if truthyF flatNew key then
      mergeLoop2 preserve flatNew rest merged removedKeys
    else
      let merged' := if preserve then setF merged key value else merged
      mergeLoop2 preserve flatNew rest merged' (removedKeys + 1)

/-- The result record of `mergeTranslations` (field `data` kept in its flat
canonical form; re-nesting and key-sorting are value-preserving
serialization steps applied afterwards). -/
structure MergeOut where
  merged : FlatMap
  newKeys : Nat
  removedKeys : Nat
  unchangedKeys : Nat
deriving Repr, DecidableEq

/-- The body of `I18nGenerator.mergeTranslations` acting on the two
flattened records. -/
def mergeFlat (preserve : Bool) (flatExisting flatNew : FlatMap) : MergeOut :=
  let r1 := mergeLoop1 preserve flatExisting flatNew [] 0 0
  let r2 := mergeLoop2 preserve flatNew flatExisting r1.1 0
  ⟨r2.1, r1.2.1, r2.2, r1.2.2⟩

/-- `I18nGenerator.mergeTranslations`: flatten both trees and merge. -/
def mergeTranslations (preserve : Bool) (existing newData : TData) : MergeOut :=
  mergeFlat preserve (flattenObject existing) (flattenObject newData)

/-! ## Levenshtein distance and `calculateSimilarity` -/

/-- The inner `j` loop of `calculateSimilarity`'s dynamic program: given
the character `bc = b[i-1]` of the current row, the remaining characters of
`a`, the cell to the left (`matrix[i][j-1]`) and the tail of the previous
row starting at the diagonal cell (`matrix[i-1][j-1] :: matrix[i-1][j] :: …`),
produce the cells `matrix[i][j] :: …` of the current row. -/
def levRow (bc : Char) : List Char → Nat → List Nat → List Nat
  | ac :: as, left, diag :: above :: rest =>
    let cur := if bc = ac then diag else min (diag + 1) (min (left + 1) (above + 1))
    cur :: levRow bc as cur (above :: rest)
  | _, _, _ => []

/-- The outer `i` loop of the dynamic program: fold each character of `b`
over the previous row; row `i` starts with `matrix[i][0] = i`. -/
def levLoop (a : List Char) : List Char → Nat → List Nat → List Nat
  | [], _, prev => prev
  | bc :: bs, i, prev => levLoop a bs (i + 1) (i :: levRow bc a i prev)

/-- The edit-distance matrix of `calculateSimilarity`, evaluated at
`matrix[b.length][a.length]`: row 0 is `0,1,…,a.length` and each later row
is produced by `levLoop`/`levRow`. -/
def levenshtein (a b : String) : Nat :=
  (levLoop a.data b.data 1 (List.range (a.data.length + 1))).getLastD 0

/-- `TranslationManager.calculateSimilarity`: `1` for identical strings,
`0` when either is empty, otherwise `1 - distance / max(len a, len b)`
(exact rational arithmetic stands in for the JS float). -/
def calculateSimilarity (a b : String) : ℚ :=
  if a = b then 1
  else if a.length = 0 ∨ b.length = 0 then 0
  else 1 - (levenshtein a b : ℚ) / (max a.length b.length : ℚ)

/-- ASCII lower-casing of one character (`String.prototype.toLowerCase`
restricted to ASCII, which covers every string this development
evaluates). -/
def charToLowerJS (c : Char) : Char :=
  if 'A' ≤ c ∧ c ≤ 'Z' then Char.ofNat (c.toNat + 32) else c

/-- ASCII upper-casing of one character. -/
def charToUpperJS (c : Char) : Char :=
  if 'a' ≤ c ∧ c ≤ 'z' then Char.ofNat (c.toNat - 32) else c

/-- `s.toLowerCase()`. -/
def toLowerJS (s : String) : String := String.mk (s.data.map charToLowerJS)

/-- The whitespace class removed by `String.prototype.trim`. -/
def isWhitespaceJS (c : Char) : Bool :=
  c = ' ' ∨ c = '\t' ∨ c = '\n' ∨ c = '\r' ∨ c = '\x0b' ∨ c = '\x0c'

/-- `s.trim()`: strip leading and trailing whitespace. -/
def trimJS (s : String) : String :=
  String.mk (((s.data.dropWhile isWhitespaceJS).reverse.dropWhile isWhitespaceJS).reverse)

/-- The query/entry normalization of the fuzzy lookup:
`s.toLowerCase().trim()`. -/
def normalizeJS (s : String) : String := trimJS (toLowerJS s)

/-! ## Translation memory -/

/-- One `TranslationMemory` entry. -/
structure TMEntry where
  source : String
  target : String
  sourceLang : String
  targetLang : String
  service : String
  timestamp : Nat
deriving Repr, DecidableEq

/-- A fuzzy-lookup hit: the stored target and the similarity score. -/
structure LookupHit where
  translation : String
  similarity : ℚ
deriving Repr, DecidableEq

/-- The entry loop of `TranslationManager.lookupInMemory`: scan the entries
in insertion order, restricted to the matching language pair; an exact
normalized match returns similarity `1.0` immediately, otherwise the first
entry whose similarity meets the threshold is returned. -/
def lookupGo (normalizedText targetLang sourceLang : String) (fuzzyThreshold : ℚ) :
    List TMEntry → Option LookupHit
  | [] => none
  | e :: rest =>
    if e.sourceLang = sourceLang ∧ e.targetLang = targetLang then
      let normalizedSource := normalizeJS e.source
      if normalizedSource = normalizedText then
        some ⟨e.target, 1⟩
      else
        let similarity := calculateSimilarity normalizedText normalizedSource
        if similarity ≥ fuzzyThreshold then
          some ⟨e.target, similarity⟩
        else
          lookupGo normalizedText targetLang sourceLang fuzzyThreshold rest
    else
      lookupGo normalizedText targetLang sourceLang fuzzyThreshold rest

/-- `TranslationManager.lookupInMemory` (default threshold `0.85` supplied
by the caller). -/
def lookupInMemory (entries : List TMEntry) (text targetLang sourceLang : String)
    (fuzzyThreshold : ℚ) : Option LookupHit :=
  lookupGo (normalizeJS text) targetLang sourceLang fuzzyThreshold entries

/-- `TranslationManager.addToMemory`: push a new entry unless an entry with
the same `(source, targetLang, sourceLang)` already exists. -/
def addToMemory (mem : List TMEntry) (source target sourceLang targetLang service : String)
    (now : Nat) : List TMEntry :=
  if mem.any (fun e => e.source = source ∧ e.targetLang = targetLang ∧ e.sourceLang = sourceLang) then
    mem
  else
    mem ++ [⟨source, target, sourceLang, targetLang, service, now⟩]

/-! ## The session cache and `TranslationManager.translate` -/

/-- The session cache `Record<cacheKey, Record<targetLang, string>>`. -/
abbrev Cache := List (String × FlatMap)

/-- `this.cache[cacheKey]`. -/
def getCache : Cache → String → Option FlatMap
  | [], _ => none
  | p :: rest, k => if p.1 = k then some p.2 else getCache rest k

/-- `this.cache[cacheKey] = m` with JS object-write semantics. -/
def setCache : Cache → String → FlatMap → Cache
  | [], k, m => [(k, m)]
  | p :: rest, k, m => if p.1 = k then (k, m) :: rest else p :: setCache rest k m

/-- JS truthiness of an optional string (`undefined` and `""` are falsy). -/
def truthyOpt : Option String → Bool
  | some v => v ≠ ""
  | none => false

/-- `if (!this.cache[cacheKey]) this.cache[cacheKey] = {}` followed by
`this.cache[cacheKey][targetLanguage] = v`. -/
def cacheWrite (c : Cache) (cacheKey targetLang v : String) : Cache :=
  setCache c cacheKey (setF ((getCache c cacheKey).getD []) targetLang v)

/-- The uniform `TranslationResult` contract. -/
structure TranslationResult where
  success : Bool
  text : Option String
  error : Option String
  service : String
  cached : Bool
deriving Repr, DecidableEq

/-- The mutable state touched by `translate`: the session cache and the
in-memory translation memory. -/
structure TransState where
  cache : Cache
  memory : List TMEntry
deriving Repr, DecidableEq

/-- The services recognized by the dispatch switch in `translate`, in
source order. -/
def validServices : List String :=
  ["deepl", "google", "libretranslate", "lingva", "mymemory", "argos", "pseudo",
   "dictionary", "local", "piglatin", "emoji", "leet", "reverse", "mirror",
   "uppercase", "morse", "nato"]

/-- The outcome of one `translate` call: the returned result, the state
after the call, and whether the backend-specific implementation was
dispatched. -/
structure TranslateOut where
  result : TranslationResult
  state : TransState
  backendCalled : Bool
deriving Repr, DecidableEq

/-- The `try`/`catch` block of `translate`: dispatch on the effective
service name.  A recognized service runs the backend (modelled as an oracle
returning either the translated string or a thrown error message); success
writes through to the session cache and the translation memory, a thrown
error is caught and returned as a failed result.  An unrecognized service
returns the `'No translation service configured'` failure without
dispatching. -/
def dispatchBackend (translationService : String) (service : String)
    (backend : String → String → Except String String) (now : Nat)
    (text targetLanguage source cacheKey : String) (st : TransState) : TranslateOut :=
  if service ∈ validServices then
    match backend service text with
    | .ok result =>
      let cache' := cacheWrite st.cache cacheKey targetLanguage result
      let memory' := addToMemory st.memory text result source targetLanguage service now
      ⟨⟨true, some result, none, translationService, false⟩, ⟨cache', memory'⟩, true⟩
    | .error errorMessage =>
      ⟨⟨false, none, some errorMessage, translationService, false⟩, st, true⟩
  else
    ⟨⟨false, none, some "No translation service configured", "none", false⟩, st, false⟩

/-- `const source = sourceLanguage || this.config.sourceLanguage` (an
omitted or empty optional parameter falls back to the configured source
language). -/
def resolveSource (sourceLanguage : String) (sourceParam : Option String) : String :=
  match sourceParam with
  | some s => if s = "" then sourceLanguage else s
  | none => sourceLanguage

/-- `TranslationManager.translate`: session-cache lookup (a cached empty
string is falsy and misses), source-equals-target short-circuit, fuzzy
translation-memory gate (accepted only when similarity is strictly above
`0.95`), then backend dispatch. -/
def translate (translationService sourceLanguage extendedService : String)
    (backend : String → String → Except String String) (now : Nat)
    (text targetLanguage : String) (sourceParam : Option String)
    (st : TransState) : TranslateOut :=
  let source := resolveSource sourceLanguage sourceParam
  let cacheKey := source ++ ":" ++ text
  let cachedVal := (getCache st.cache cacheKey).bind (fun m => getF m targetLanguage)
  if truthyOpt cachedVal then
    ⟨⟨true, cachedVal, none, translationService, true⟩, st, false⟩
  else if source = targetLanguage then
    ⟨⟨true, some text, none, "none", false⟩, st, false⟩
  else
    let service := if extendedService ≠ "" then extendedService else translationService
    match lookupInMemory st.memory text targetLanguage source (85/100) with
    | some memoryMatch =>
      if memoryMatch.similarity > 95/100 then
        let cache' := cacheWrite st.cache cacheKey targetLanguage memoryMatch.translation
        ⟨⟨true, some memoryMatch.translation, none, translationService, true⟩, ⟨cache', st.memory⟩, false⟩
      else
        dispatchBackend translationService service backend now text targetLanguage source cacheKey st
    | none =>
      dispatchBackend translationService service backend now text targetLanguage source cacheKey st

/-! ## `I18nGenerator.translateMissingKeys` -/

/-- One entry of the `translateBatch` result map (`TranslationResult`
restricted to the fields the splice loop reads). -/
structure BatchResult where
  success : Bool
  text : Option String
deriving Repr, DecidableEq

/-- The selection predicate of `translateMissingKeys`:
`!flatTarget[key] || flatTarget[key] === value`. -/
def needsTranslation (flatTarget : FlatMap) (key value : String) : Bool :=
  !truthyF flatTarget key || getF flatTarget key == some value

/-- The `keysToTranslate` list: the source entries, in order, that satisfy
the selection predicate. -/
def keysToTranslate (flatSource flatTarget : FlatMap) : List (String × String) :=
  flatSource.filter (fun kv => needsTranslation flatTarget kv.1 kv.2)

/-- The apply-translations loop: splice each batch result back in by key,
falling back to the source value when the call failed (or produced a falsy
text). -/
def spliceTranslations (translations : String → Option BatchResult) :
    List (String × String) → FlatMap → FlatMap
  | [], result => result
  | (key, value) :: rest, result =>
    let result' := match translations value with
      | some tr => if tr.success && truthyOpt tr.text then setF result key (tr.text.getD "")
                   else setF result key value
      | none => setF result key value
    spliceTranslations translations rest result'

/-- The no-translation-service branch: copy the source values. -/
def copySourceValues : List (String × String) → FlatMap → FlatMap
  | [], result => result
  | (key, value) :: rest, result => copySourceValues rest (setF result key value)

/-- `I18nGenerator.translateMissingKeys`, with the batch call modelled as a
result map `translations : text → BatchResult` (the output of
`translateBatch`, keyed by source text).  The returned record is the flat
form of the output tree (re-nesting and key sorting are value-preserving). -/
def translateMissingKeys (service : String) (translations : String → Option BatchResult)
    (sourceData existingTarget : TData) : FlatMap :=
  let flatSource := flattenObject sourceData
  let flatTarget := flattenObject existingTarget
  let toTranslate := keysToTranslate flatSource flatTarget
  if toTranslate = [] then
    flatTarget
  else if service ≠ "none" then
    spliceTranslations translations toTranslate flatTarget
  else
    copySourceValues toTranslate flatTarget

/-! ## `TranslationManager.handleApiError` -/

/-- The response attached to an HTTP-level axios error:
`{ status, data?: { message?, error?: { message? } } }`. -/
structure ApiResponse where
  status : Nat
  dataMessage : Option String
  dataErrorMessage : Option String
deriving Repr, DecidableEq

/-- An error value reaching `handleApiError`: an axios error with an
optional response and request, or a plain thrown error.  `errorMessage` is
`error.message` when the value is an `Error` instance. -/
structure ApiError where
  isAxiosError : Bool
  response : Option ApiResponse
  hasRequest : Bool
  errorMessage : Option String
deriving Repr, DecidableEq

/-- `service.toUpperCase()`. -/
def toUpperJS (s : String) : String := String.mk (s.data.map charToUpperJS)

/-- `TranslationManager.handleApiError`: classify an axios HTTP error by
status (401/403 credential, 429 rate limit, 456 quota, 500/503 unavailable,
other statuses pass through the backend message with a generic fallback),
a request with no response as a network error, and anything else by its own
message. -/
def handleApiError (e : ApiError) (service : String) : String :=
  if e.isAxiosError then
    match e.response with
    | some r =>
      if r.status = 401 ∨ r.status = 403 then
        toUpperJS service ++ " API key is invalid or expired"
      else if r.status = 429 then
        toUpperJS service ++ " rate limit exceeded. Please try again later."
      else if r.status = 456 then
        toUpperJS service ++ " quota exceeded. Please check your plan limits."
      else if r.status = 500 ∨ r.status = 503 then
        toUpperJS service ++ " service temporarily unavailable"
      else if truthyOpt r.dataMessage then
        r.dataMessage.getD ""
      else if truthyOpt r.dataErrorMessage then
        r.dataErrorMessage.getD ""
      else
        toUpperJS service ++ " error: " ++ toString r.status
    | none =>
      if e.hasRequest then
        "Network error: Unable to reach " ++ toUpperJS service ++ " API"
      else
        match e.errorMessage with
        | some m => m
        | none => "Unknown translation error"
  else
    match e.errorMessage with
    | some m => m
    | none => "Unknown translation error"

/-! ## The protected-span scanner and `translateToMorse`

The transforms share the pattern
`/(\{[^}]+\}|\{\{[^}]+\}\}|<[^>]+>|\$\{[^}]+\}|%[sd]|\$\w+)/g`.
`tryMatchToken` mirrors the regex engine on that pattern at one position:
alternatives are tried in source order and `[^X]+` is a maximal nonempty
run (no backtracking is possible since the class excludes the closer). -/

/-- A JS `\w` word character: `[A-Za-z0-9_]`. -/
def isWordCharJS (c : Char) : Bool :=
  ('a' ≤ c && c ≤ 'z') || ('A' ≤ c && c ≤ 'Z') || ('0' ≤ c && c ≤ '9') || c = '_'

/-- Alternative `\{[^}]+\}`. -/
def altBrace : List Char → Option Nat
  | '{' :: rest =>
    let run := rest.takeWhile (fun c => c ≠ '}')
    if run.length ≥ 1 ∧ rest.drop run.length ≠ [] then some (run.length + 2) else none
  | _ => none

/-- Alternative `\{\{[^}]+\}\}` (unreachable after `altBrace`, kept for
fidelity to the regex). -/
def altDoubleBrace : List Char → Option Nat
  | '{' :: '{' :: rest =>
    let run := rest.takeWhile (fun c => c ≠ '}')
    if run.length ≥ 1 ∧ (rest.drop run.length).take 2 = ['}', '}'] then some (run.length + 4)
    else none
  | _ => none

/-- Alternative `<[^>]+>`. -/
def altAngle : List Char → Option Nat
  | '<' :: rest =>
    let run := rest.takeWhile (fun c => c ≠ '>')
    if run.length ≥ 1 ∧ rest.drop run.length ≠ [] then some (run.length + 2) else none
  | _ => none

/-- Alternative `\$\{[^}]+\}`. -/
def altDollarBrace : List Char → Option Nat
  | '$' :: '{' :: rest =>
    let run := rest.takeWhile (fun c => c ≠ '}')
    if run.length ≥ 1 ∧ rest.drop run.length ≠ [] then some (run.length + 3) else none
  | _ => none

/-- Alternative `%[sd]`. -/
def altPrintf : List Char → Option Nat
  | '%' :: c :: _ => if c = 's' ∨ c = 'd' then some 2 else none
  | _ => none

/-- Alternative `\$\w+`. -/
def altDollarWord : List Char → Option Nat
  | '$' :: rest =>
    let run := rest.takeWhile isWordCharJS
    if run.length ≥ 1 then some (run.length + 1) else none
  | _ => none

/-- Match length of the preserve pattern at the head of `cs`, if any:
the regex alternatives are tried in source order. -/
def tryMatchToken (cs : List Char) : Option Nat :=
  altBrace cs <|> altDoubleBrace cs <|> altAngle cs <|> altDollarBrace cs <|>
    altPrintf cs <|> altDollarWord cs

theorem altBrace_pos (cs : List Char) (len : Nat) (h : altBrace cs = some len) : 1 ≤ len := by
  unfold altBrace at h
  split at h <;> [skip; simp_all]
  simp only at h
  split at h
  · simp only [Option.some.injEq] at h; omega
  · simp at h

theorem altDoubleBrace_pos (cs : List Char) (len : Nat) (h : altDoubleBrace cs = some len) :
    1 ≤ len := by
  unfold altDoubleBrace at h
  split at h <;> [skip; simp_all]
  simp only at h
  split at h
  · simp only [Option.some.injEq] at h; omega
  · simp at h

theorem altAngle_pos (cs : List Char) (len : Nat) (h : altAngle cs = some len) : 1 ≤ len := by
  unfold altAngle at h
  split at h <;> [skip; simp_all]
  simp only at h
  split at h
  · simp only [Option.some.injEq] at h; omega
  · simp at h

theorem altDollarBrace_pos (cs : List Char) (len : Nat) (h : altDollarBrace cs = some len) :
    1 ≤ len := by
  unfold altDollarBrace at h
  split at h <;> [skip; simp_all]
  simp only at h
  split at h
  · simp only [Option.some.injEq] at h; omega
  · simp at h

theorem altPrintf_pos (cs : List Char) (len : Nat) (h : altPrintf cs = some len) : 1 ≤ len := by
  unfold altPrintf at h
  split at h <;> [skip; simp_all]
  split at h
  · simp only [Option.some.injEq] at h; omega
  · simp at h

theorem altDollarWord_pos (cs : List Char) (len : Nat) (h : altDollarWord cs = some len) :
    1 ≤ len := by
  unfold altDollarWord at h
  split at h <;> [skip; simp_all]
  simp only at h
  split at h
  · simp only [Option.some.injEq] at h; omega
  · simp at h

theorem tryMatchToken_pos (cs : List Char) (len : Nat) :
    tryMatchToken cs = some len → 1 ≤ len := by
  unfold tryMatchToken
  intro h
  simp only [Option.orElse_eq_some] at h
  rcases h with h | ⟨-, h | ⟨-, h | ⟨-, h | ⟨-, h | ⟨-, h⟩⟩⟩⟩⟩
  · exact altBrace_pos cs len h
  · exact altDoubleBrace_pos cs len h
  · exact altAngle_pos cs len h
  · exact altDollarBrace_pos cs len h
  · exact altPrintf_pos cs len h
  · exact altDollarWord_pos cs len h

/-- The placeholder emitted for the `idx`-th preserved segment:
`` `\x00${idx}\x00` ``. -/
def placeholder (idx : Nat) : String := "\x00" ++ toString idx ++ "\x00"

/-- The scanning loop of `text.replace(preservePattern, cb)`, made
structural with a fuel argument (`protectGo` below supplies
`cs.length`, which always suffices since every match consumes at least
one character). -/
def protectGoF : Nat → List Char → Nat → List Char × List String
  | 0, _, _ => ([], [])
  | fuel + 1, cs, idx =>
    match tryMatchToken cs with
    | some len =>
      match cs with
      | [] => ([], [])
      | c :: rest =>
        let seg := String.mk ((c :: rest).take len)
        let out := protectGoF fuel ((c :: rest).drop len) (idx + 1)
        ((placeholder idx).data ++ out.1, seg :: out.2)
    | none =>
      match cs with
      | [] => ([], [])
      | c :: rest =>
        let out := protectGoF fuel rest idx
        (c :: out.1, out.2)

/-- `text.replace(preservePattern, match => { segments.push(match);
return placeholder(idx++) })`: returns the text with placeholders and the
preserved segments in order. -/
def protectGo (cs : List Char) (idx : Nat) : List Char × List String :=
  protectGoF cs.length cs idx

/-- The `MORSE_CODE` table. -/
def morseMap : Char → Option String
  | 'a' => some ".-"
  | 'b' => some "-..."
  | 'c' => some "-.-."
  | 'd' => some "-.."
  | 'e' => some "."
  | 'f' => some "..-."
  | 'g' => some "--."
  | 'h' => some "...."
  | 'i' => some ".."
  | 'j' => some ".---"
  | 'k' => some "-.-"
  | 'l' => some ".-.."
  | 'm' => some "--"
  | 'n' => some "-."
  | 'o' => some "---"
  | 'p' => some ".--."
  | 'q' => some "--.-"
  | 'r' => some ".-."
  | 's' => some "..."
  | 't' => some "-"
  | 'u' => some "..-"
  | 'v' => some "...-"
  | 'w' => some ".--"
  | 'x' => some "-..-"
  | 'y' => some "-.--"
  | 'z' => some "--.."
  | '0' => some "-----"
  | '1' => some ".----"
  | '2' => some "..---"
  | '3' => some "...--"
  | '4' => some "....-"
  | '5' => some "....."
  | '6' => some "-...."
  | '7' => some "--..."
  | '8' => some "---.."
  | '9' => some "----."
  | ' ' => some "/"
  | '.' => some ".-.-.-"
  | ',' => some "--..--"
  | '?' => some "..--.."
  | '!' => some "-.-.--"
  | '\'' => some ".----."
  | '"' => some ".-..-."
  | ':' => some "---..."
  | ';' => some "-.-.-."
  | '=' => some "-...-"
  | '+' => some ".-.-."
  | '-' => some "-....-"
  | '/' => some "-..-."
  | '(' => some "-.--."
  | ')' => some "-.--.-"
  | '&' => some ".-..."
  | '@' => some ".--.-."
  | _ => none

/-- The loop of `.replace(/  +/g, ' / ')`, fuelled for structural
recursion (`collapseSpaces` supplies `cs.length`, always sufficient). -/
def collapseSpacesF : Nat → List Char → List Char
  | 0, _ => []
  | fuel + 1, cs =>
    match cs with
    | ' ' :: ' ' :: rest =>
      ' ' :: '/' :: ' ' :: collapseSpacesF fuel (rest.dropWhile (fun c => c = ' '))
    | c :: rest => c :: collapseSpacesF fuel rest
    | [] => []

/-- `.replace(/  +/g, ' / ')`: collapse every maximal run of two or more
spaces into `' / '`. -/
def collapseSpaces (cs : List Char) : List Char :=
  collapseSpacesF cs.length cs

/-- JS replacement-string expansion for `String.prototype.replace`:
`$$`, `$&`, `` $` `` and `$'` are special, any other `$` is literal. -/
def expandDollar (matched before after : List Char) : Nat → List Char → List Char
  | 0, _ => []
  | _ + 1, [] => []
  | fuel + 1, '$' :: d :: rest =>
    if d = '$' then '$' :: expandDollar matched before after fuel rest
    else if d = '&' then matched ++ expandDollar matched before after fuel rest
    else if d = Char.ofNat 96 then before ++ expandDollar matched before after fuel rest
    else if d = Char.ofNat 39 then after ++ expandDollar matched before after fuel rest
    else '$' :: expandDollar matched before after fuel (d :: rest)
  | fuel + 1, c :: rest => c :: expandDollar matched before after fuel rest

/-- `hay.replace(pat, rep)` with a string pattern: replace the first
occurrence only, expanding `$` patterns in the replacement; if the pattern
does not occur the string is returned unchanged. -/
def replaceGo (pat rep : List Char) (seen : List Char) : List Char → List Char
  | [] => seen.reverse
  | c :: rest =>
    if pat.isPrefixOf (c :: rest) then
      let after := (c :: rest).drop pat.length
      seen.reverse ++ expandDollar pat seen.reverse after rep.length rep ++ after
    else
      replaceGo pat rep (c :: seen) rest

/-- String-level wrapper around `replaceGo`. -/
def replaceOnceJS (hay pat rep : String) : String :=
  String.mk (replaceGo pat.data rep.data [] hay.data)

/-- The restore loop shared by the transforms: for `i = 0 .. n-1` replace
the first occurrence of `mk i` by the `i`-th preserved segment. -/
def restoreSegs (mk : Nat → String) : String → Nat → List String → String
  | s, _, [] => s
  | s, i, seg :: rest => restoreSegs mk (replaceOnceJS s (mk i) seg) (i + 1) rest

/-- `TranslationManager.translateToMorse`: protect interpolation tokens,
lower-case, map each character through `MORSE_CODE` (placeholder `\x00`
markers are pushed through), join with single spaces, collapse double
spaces, then attempt to restore the preserved segments by searching for
`` `\x00 ${i} \x00` ``. -/
def translateToMorse (text : String) : String :=
  let protected_ := protectGo text.data 0
  let tlc := toLowerJS (String.mk protected_.1)
  let morseChars := tlc.data.map (fun c =>
    if c = '\x00' then "\x00" else (morseMap c).getD (String.mk [c]))
  let joined := String.intercalate " " morseChars
  let collapsed := String.mk (collapseSpaces joined.data)
  restoreSegs (fun i => "\x00 " ++ toString i ++ " \x00") collapsed 0 protected_.2

/-! ## Record lemmas -/

theorem getF_setF_self (m : FlatMap) (k v : String) : getF (setF m k v) k = some v := by
  induction m with
  | nil => simp [setF, getF]
  | cons p rest ih =>
    by_cases h : p.1 = k
    · simp [setF, getF, h]
    · simp [setF, getF, h, ih]

theorem keysF_nil : keysF [] = [] := rfl

theorem keysF_cons (p : String × String) (rest : FlatMap) :
    keysF (p :: rest) = p.1 :: keysF rest := rfl

theorem getF_setF_ne (m : FlatMap) (k v k' : String) (h : k' ≠ k) :
    getF (setF m k v) k' = getF m k' := by
  induction m with
  | nil =>
    simp only [setF, getF]
    rw [if_neg (fun e => h e.symm)]
  | cons p rest ih =>
    by_cases hp : p.1 = k
    · simp only [setF, if_pos hp, getF]
      have h1 : ¬k = k' := fun e => h e.symm
      have h2 : ¬p.1 = k' := by rw [hp]; exact h1
      rw [if_neg h1, if_neg h2]
    · simp only [setF, if_neg hp, getF, ih]

theorem keysF_setF (m : FlatMap) (k v : String) :
    keysF (setF m k v) = if k ∈ keysF m then keysF m else keysF m ++ [k] := by
  induction m with
  | nil => simp [setF, keysF]
  | cons p rest ih =>
    by_cases hp : p.1 = k
    · simp only [setF, if_pos hp, keysF_cons]
      rw [if_pos (by rw [hp]; exact List.mem_cons_self _ _)]
      rw [hp]
    · simp only [setF, if_neg hp, keysF_cons, ih]
      have hne : k ≠ p.1 := fun e => hp e.symm
      by_cases hm : k ∈ keysF rest
      · rw [if_pos hm, if_pos (List.mem_cons_of_mem _ hm)]
      · rw [if_neg hm, if_neg (by simp [hne, hm])]
        simp

theorem mem_keysF_setF (m : FlatMap) (k v a : String) :
    a ∈ keysF (setF m k v) ↔ a ∈ keysF m ∨ a = k := by
  rw [keysF_setF]
  split
  · rename_i hm
    constructor
    · exact Or.inl
    · rintro (h | h)
      · exact h
      · rw [h]; exact hm
  · simp

theorem nodup_keysF_setF (m : FlatMap) (k v : String) (h : (keysF m).Nodup) :
    (keysF (setF m k v)).Nodup := by
  rw [keysF_setF]
  split
  · exact h
  · rename_i hm
    simp [List.nodup_append, h, hm]

theorem getF_eq_none_iff (m : FlatMap) (k : String) : getF m k = none ↔ k ∉ keysF m := by
  induction m with
  | nil => simp [getF, keysF]
  | cons p rest ih =>
    by_cases hp : p.1 = k
    · simp [getF, hp, keysF_cons]
    · simp only [getF, if_neg hp, keysF_cons, ih, List.mem_cons]
      constructor
      · rintro hk (h | h)
        · exact hp h.symm
        · exact hk h
      · intro hk h
        exact hk (Or.inr h)

theorem mem_keysF_of_getF (m : FlatMap) (k v : String) (h : getF m k = some v) :
    k ∈ keysF m := by
  by_contra hk
  rw [← getF_eq_none_iff] at hk
  rw [h] at hk
  exact Option.noConfusion hk

theorem getF_isSome_of_mem (m : FlatMap) (k : String) (h : k ∈ keysF m) :
    ∃ v, getF m k = some v := by
  rcases he : getF m k with _ | v
  · exact absurd ((getF_eq_none_iff m k).mp he) (by simp [h])
  · exact ⟨v, rfl⟩

theorem getF_of_mem_nodup (m : FlatMap) (k v : String) (hnd : (keysF m).Nodup)
    (h : (k, v) ∈ m) : getF m k = some v := by
  induction m with
  | nil => simp at h
  | cons p rest ih =>
    rw [keysF_cons, List.nodup_cons] at hnd
    rcases List.mem_cons.mp h with h | h
    · simp [getF, ← h]
    · have hk : k ∈ keysF rest := List.mem_map.mpr ⟨(k, v), h, rfl⟩
      have hp : p.1 ≠ k := fun e => hnd.1 (e ▸ hk)
      simp only [getF, if_neg hp]
      exact ih hnd.2 h

theorem mem_of_getF (m : FlatMap) (k v : String) (h : getF m k = some v) : (k, v) ∈ m := by
  induction m with
  | nil => simp [getF] at h
  | cons p rest ih =>
    by_cases hp : p.1 = k
    · simp only [getF, if_pos hp, Option.some.injEq] at h
      have : p = (k, v) := by
        cases p
        simp_all
      rw [this]
      exact List.mem_cons_self _ _
    · simp only [getF, if_neg hp] at h
      exact List.mem_cons_of_mem _ (ih h)

theorem truthyF_false_iff (m : FlatMap) (k : String) :
    truthyF m k = false ↔ getF m k = none ∨ getF m k = some "" := by
  unfold truthyF
  rcases getF m k with _ | v <;> simp

theorem truthyF_true_iff (m : FlatMap) (k : String) :
    truthyF m k = true ↔ ∃ v, getF m k = some v ∧ v ≠ "" := by
  unfold truthyF
  rcases getF m k with _ | v <;> simp

/-! ## Flattening produces records with pairwise-distinct keys -/

mutual
theorem flattenVal_nodup (pre : String) (acc : FlatMap) (h : (keysF acc).Nodup) :
    (v : TValue) → (keysF (flattenVal pre acc v)).Nodup
  | .str s => by
    rw [flattenVal]
    exact nodup_keysF_setF acc pre s h
  | .obj kvs => by
    rw [flattenVal]
    exact flattenList_nodup pre acc h kvs

theorem flattenList_nodup (pre : String) (acc : FlatMap) (h : (keysF acc).Nodup) :
    (kvs : List (String × TValue)) → (keysF (flattenList pre acc kvs)).Nodup
  | [] => by
    rw [flattenList]
    exact h
  | (k, v) :: rest => by
    rw [flattenList]
    exact flattenList_nodup pre (flattenVal (childKey pre k) acc v)
      (flattenVal_nodup (childKey pre k) acc h v) rest
end

theorem flattenObject_nodup (t : TData) : (keysF (flattenObject t)).Nodup :=
  flattenList_nodup "" [] (by simp [keysF]) t

/-! ## Merge-loop characterization -/

theorem mergeLoop1_counts (p : Bool) (FE : FlatMap) (entries : List (String × String)) :
    ∀ (m : FlatMap) (n u : Nat),
      (mergeLoop1 p FE entries m n u).2.1
          = n + (entries.filter (fun kv => ¬ truthyF FE kv.1)).length ∧
      (mergeLoop1 p FE entries m n u).2.2
          = u + (entries.filter (fun kv => truthyF FE kv.1)).length := by
  induction entries with
  | nil => intro m n u; simp [mergeLoop1]
  | cons kv rest ih =>
    intro m n u
    rcases kv with ⟨key, value⟩
    by_cases ht : truthyF FE key
    · simp only [mergeLoop1, if_pos ht, List.filter_cons]
      rcases ih (setF m key (if p then (getF FE key).getD "" else value)) n (u + 1) with ⟨h1, h2⟩
      constructor
      · rw [h1]
        try simp [ht]
        try omega
      · rw [h2]
        try simp [ht]
        try omega
    · simp only [mergeLoop1, if_neg ht, List.filter_cons]
      rcases ih (setF m key value) (n + 1) u with ⟨h1, h2⟩
      constructor
      · rw [h1]
        try simp [ht]
        try omega
      · rw [h2]
        try simp [ht]
        try omega

theorem mergeLoop2_counts (p : Bool) (FN : FlatMap) (entries : List (String × String)) :
    ∀ (m : FlatMap) (r : Nat),
      (mergeLoop2 p FN entries m r).2
          = r + (entries.filter (fun kv => ¬ truthyF FN kv.1)).length := by
  induction entries with
  | nil => intro m r; simp [mergeLoop2]
  | cons kv rest ih =>
    intro m r
    rcases kv with ⟨key, value⟩
    by_cases ht : truthyF FN key
    · simp only [mergeLoop2, if_pos ht, List.filter_cons]
      rw [ih m r]
      simp [ht]
    · simp only [mergeLoop2, if_neg ht, List.filter_cons]
      rw [ih _ (r + 1)]
      simp [ht]
      omega

theorem mergeLoop1_getF_notmem (p : Bool) (FE : FlatMap) (entries : List (String × String)) :
    ∀ (m : FlatMap) (n u : Nat) (k : String), k ∉ entries.map (·.1) →
      getF (mergeLoop1 p FE entries m n u).1 k = getF m k := by
  induction entries with
  | nil => intro m n u k _; simp [mergeLoop1]
  | cons kv rest ih =>
    intro m n u k hk
    rcases kv with ⟨key, value⟩
    simp only [List.map_cons, List.mem_cons] at hk
    push_neg at hk
    by_cases ht : truthyF FE key
    · simp only [mergeLoop1, if_pos ht]
      rw [ih _ _ _ _ hk.2, getF_setF_ne _ _ _ _ hk.1]
    · simp only [mergeLoop1, if_neg ht]
      rw [ih _ _ _ _ hk.2, getF_setF_ne _ _ _ _ hk.1]

theorem mergeLoop1_getF_mem (p : Bool) (FE : FlatMap) (entries : List (String × String)) :
    ∀ (m : FlatMap) (n u : Nat) (k v : String),
      (entries.map (·.1)).Nodup → (k, v) ∈ entries →
      getF (mergeLoop1 p FE entries m n u).1 k
        = some (if truthyF FE k then (if p then (getF FE k).getD "" else v) else v) := by
  induction entries with
  | nil => intro m n u k v _ h; simp at h
  | cons kv rest ih =>
    intro m n u k v hnd hmem
    rcases kv with ⟨key, value⟩
    simp only [List.map_cons, List.nodup_cons] at hnd
    rcases List.mem_cons.mp hmem with h | h
    · rcases Prod.mk.injEq .. ▸ h with ⟨hk, hv⟩
      have hk' : key = k := hk.symm
      have hnotin : k ∉ rest.map (·.1) := by rw [← hk']; exact hnd.1
      by_cases ht : truthyF FE key
      · simp only [mergeLoop1, if_pos ht]
        rw [mergeLoop1_getF_notmem p FE rest _ _ _ _ hnotin, hk']
        rw [hk'] at ht
        rw [getF_setF_self, if_pos ht, hv]
      · simp only [mergeLoop1, if_neg ht]
        rw [mergeLoop1_getF_notmem p FE rest _ _ _ _ hnotin, hk']
        rw [hk'] at ht
        rw [getF_setF_self, if_neg (by simpa using ht), hv]
    · have hkey : key ≠ k := by
        intro e
        exact hnd.1 (e ▸ List.mem_map.mpr ⟨(k, v), h, rfl⟩)
      by_cases ht : truthyF FE key
      · simp only [mergeLoop1, if_pos ht]
        exact ih _ _ _ _ _ hnd.2 h
      · simp only [mergeLoop1, if_neg ht]
        exact ih _ _ _ _ _ hnd.2 h

theorem mergeLoop1_keys_mono (p : Bool) (FE : FlatMap) (entries : List (String × String)) :
    ∀ (m : FlatMap) (n u : Nat) (k : String), k ∈ keysF m →
      k ∈ keysF (mergeLoop1 p FE entries m n u).1 := by
  induction entries with
  | nil => intro m n u k h; simpa [mergeLoop1] using h
  | cons kv rest ih =>
    intro m n u k h
    rcases kv with ⟨key, value⟩
    by_cases ht : truthyF FE key
    · simp only [mergeLoop1, if_pos ht]
      exact ih _ _ _ _ ((mem_keysF_setF _ _ _ _).mpr (Or.inl h))
    · simp only [mergeLoop1, if_neg ht]
      exact ih _ _ _ _ ((mem_keysF_setF _ _ _ _).mpr (Or.inl h))

theorem mergeLoop2_getF_keep (p : Bool) (FN : FlatMap) (entries : List (String × String)) :
    ∀ (m : FlatMap) (r : Nat) (k : String),
      (∀ v, (k, v) ∈ entries → truthyF FN k) →
      getF (mergeLoop2 p FN entries m r).1 k = getF m k := by
  induction entries with
  | nil => intro m r k _; simp [mergeLoop2]
  | cons kv rest ih =>
    intro m r k hall
    rcases kv with ⟨key, value⟩
    by_cases ht : truthyF FN key
    · simp only [mergeLoop2, if_pos ht]
      exact ih _ _ _ (fun v hv => hall v (List.mem_cons_of_mem _ hv))
    · simp only [mergeLoop2, if_neg ht]
      have hkey : key ≠ k := by
        intro e
        subst e
        exact ht (hall value (List.mem_cons_self _ _))
      cases p with
      | true =>
        rw [if_pos rfl]
        rw [ih _ _ _ (fun v hv => hall v (List.mem_cons_of_mem _ hv)),
          getF_setF_ne _ _ _ _ (fun e => hkey e.symm)]
      | false =>
        rw [if_neg (by decide)]
        exact ih _ _ _ (fun v hv => hall v (List.mem_cons_of_mem _ hv))

theorem mergeLoop2_getF_notmem (p : Bool) (FN : FlatMap) (entries : List (String × String)) :
    ∀ (m : FlatMap) (r : Nat) (k : String), k ∉ entries.map (·.1) →
      getF (mergeLoop2 p FN entries m r).1 k = getF m k := by
  induction entries with
  | nil => intro m r k _; simp [mergeLoop2]
  | cons kv rest ih =>
    intro m r k hk
    rcases kv with ⟨key, value⟩
    simp only [List.map_cons, List.mem_cons] at hk
    push_neg at hk
    by_cases ht : truthyF FN key
    · simp only [mergeLoop2, if_pos ht]
      exact ih _ _ _ hk.2
    · simp only [mergeLoop2, if_neg ht]
      cases p with
      | true =>
        rw [if_pos rfl]
        rw [ih _ _ _ hk.2, getF_setF_ne _ _ _ _ hk.1]
      | false =>
        rw [if_neg (by decide)]
        exact ih _ _ _ hk.2

theorem mergeLoop2_getF_set (FN : FlatMap) (entries : List (String × String)) :
    ∀ (m : FlatMap) (r : Nat) (k v : String),
      (entries.map (·.1)).Nodup → (k, v) ∈ entries → truthyF FN k = false →
      getF (mergeLoop2 true FN entries m r).1 k = some v := by
  induction entries with
  | nil => intro m r k v _ h _; simp at h
  | cons kv rest ih =>
    intro m r k v hnd hmem hfalse
    rcases kv with ⟨key, value⟩
    simp only [List.map_cons, List.nodup_cons] at hnd
    rcases List.mem_cons.mp hmem with h | h
    · rcases Prod.mk.injEq .. ▸ h with ⟨hk, hv⟩
      have hk' : key = k := hk.symm
      have ht : ¬ truthyF FN key = true := by rw [hk', hfalse]; simp
      simp only [mergeLoop2, if_neg ht]
      simp only [if_true]
      have hnotin : k ∉ rest.map (·.1) := by rw [← hk']; exact hnd.1
      rw [mergeLoop2_getF_notmem true FN rest _ _ _ hnotin, hk', getF_setF_self, hv]
    · have hkey : key ≠ k := by
        intro e
        exact hnd.1 (e ▸ List.mem_map.mpr ⟨(k, v), h, rfl⟩)
      by_cases ht : truthyF FN key
      · simp only [mergeLoop2, if_pos ht]
        exact ih _ _ _ _ hnd.2 h hfalse
      · simp only [mergeLoop2, if_neg ht]
        simp only [if_true]
        exact ih _ _ _ _ hnd.2 h hfalse

theorem mergeLoop2_keys_mono (p : Bool) (FN : FlatMap) (entries : List (String × String)) :
    ∀ (m : FlatMap) (r : Nat) (k : String), k ∈ keysF m →
      k ∈ keysF (mergeLoop2 p FN entries m r).1 := by
  induction entries with
  | nil => intro m r k h; simpa [mergeLoop2] using h
  | cons kv rest ih =>
    intro m r k h
    rcases kv with ⟨key, value⟩
    by_cases ht : truthyF FN key
    · simp only [mergeLoop2, if_pos ht]
      exact ih _ _ _ h
    · simp only [mergeLoop2, if_neg ht]
      cases p with
      | true =>
        rw [if_pos rfl]
        exact ih _ _ _ ((mem_keysF_setF _ _ _ _).mpr (Or.inl h))
      | false =>
        rw [if_neg (by decide)]
        exact ih _ _ _ h

theorem length_filter_split {α} (P : α → Bool) (l : List α) :
    (l.filter (fun a => ¬ P a)).length + (l.filter P).length = l.length := by
  have h := List.length_eq_length_filter_add (l := l) P
  have he : (l.filter (fun a => ¬ P a)) = l.filter (fun a => ! P a) := by
    apply List.filter_congr
    intro a _
    simp
  rw [he, h]
  omega

theorem keysF_eq_map (m : FlatMap) : keysF m = m.map (·.1) := rfl

/-! ## Claim C1 -/

/-- C1 (counterexample): under `preserveExisting=true`, for the trees
`A = {"k": ""}` and `B = {"k": "x"}` the key `"k"` is present in both, yet
the merged output holds B's value `"x"`, not A's value `""` — the
empty-string value is falsy, so the merge treats the key as absent from A
and clobbers it. -/
theorem C1_counterexample :
    getF (flattenObject [("k", TValue.str "")]) "k" = some "" ∧
    getF (flattenObject [("k", TValue.str "x")]) "k" = some "x" ∧
    getF (mergeTranslations true [("k", TValue.str "")] [("k", TValue.str "x")]).merged "k"
        = some "x" ∧
    (some "x" : Option String) ≠ some "" := by
  decide

/-- C1 (amended): under `preserveExisting=true`, every flattened key of A
is present in the merged output, and every key present in both A and B
whose value in A is nonempty keeps A's value. -/
theorem C1_merge_preserveExisting (A B : TData) :
    (∀ k, k ∈ keysF (flattenObject A) → k ∈ keysF (mergeTranslations true A B).merged) ∧
    (∀ k va vb, getF (flattenObject A) k = some va → va ≠ "" →
        getF (flattenObject B) k = some vb →
        getF (mergeTranslations true A B).merged k = some va) := by
  have hE : ((flattenObject A).map (·.1)).Nodup := by
    rw [← keysF_eq_map]; exact flattenObject_nodup A
  have hN : ((flattenObject B).map (·.1)).Nodup := by
    rw [← keysF_eq_map]; exact flattenObject_nodup B
  constructor
  · intro k hk
    obtain ⟨va, hva⟩ := getF_isSome_of_mem _ k hk
    by_cases ht : truthyF (flattenObject B) k
    · obtain ⟨vb, hvb, -⟩ := (truthyF_true_iff _ k).mp ht
      have hmem := mem_of_getF _ k vb hvb
      have h1 := mergeLoop1_getF_mem true (flattenObject A) (flattenObject B) [] 0 0 k vb hN hmem
      have h2 := mergeLoop2_getF_keep true (flattenObject B) (flattenObject A)
        (mergeLoop1 true (flattenObject A) (flattenObject B) [] 0 0).1 0 k (fun v _ => ht)
      exact mem_keysF_of_getF _ k _ (h2.trans h1)
    · have hmem := mem_of_getF _ k va hva
      have h2 := mergeLoop2_getF_set (flattenObject B) (flattenObject A)
        (mergeLoop1 true (flattenObject A) (flattenObject B) [] 0 0).1 0 k va hE hmem
        (by simpa using ht)
      exact mem_keysF_of_getF _ k va h2
  · intro k va vb hva hne hvb
    have htE : truthyF (flattenObject A) k = true := (truthyF_true_iff _ k).mpr ⟨va, hva, hne⟩
    by_cases ht : truthyF (flattenObject B) k
    · have hmem := mem_of_getF _ k vb hvb
      have h1 := mergeLoop1_getF_mem true (flattenObject A) (flattenObject B) [] 0 0 k vb hN hmem
      have h2 := mergeLoop2_getF_keep true (flattenObject B) (flattenObject A)
        (mergeLoop1 true (flattenObject A) (flattenObject B) [] 0 0).1 0 k (fun v _ => ht)
      have h3 := h2.trans h1
      rw [htE, hva] at h3
      simp only [if_true] at h3
      simpa using h3
    · have hmem := mem_of_getF _ k va hva
      have h2 := mergeLoop2_getF_set (flattenObject B) (flattenObject A)
        (mergeLoop1 true (flattenObject A) (flattenObject B) [] 0 0).1 0 k va hE hmem
        (by simpa using ht)
      exact h2

/-- C1 (witness): the amended theorem applied at
`A = {"a": "X", "b": "Y"}`, `B = {"b": "Z", "c": "W"}`. -/
theorem C1_merge_preserveExisting_witness :
    getF (mergeTranslations true
        [("a", TValue.str "X"), ("b", TValue.str "Y")]
        [("b", TValue.str "Z"), ("c", TValue.str "W")]).merged "b" = some "Y" :=
  (C1_merge_preserveExisting
      [("a", TValue.str "X"), ("b", TValue.str "Y")]
      [("b", TValue.str "Z"), ("c", TValue.str "W")]).2
    "b" "Y" "Z" (by decide) (by decide) (by decide)

/-! ## Claim C2 -/

/-- C2 (counterexample): for `A = {"k": "x"}` and `B = {"k": ""}` the code
counts `removedKeys = 1` although the key set of `flatten(A)` minus the
key set of `flatten(B)` is empty (the empty-string value in B is falsy, so
the key is counted as removed even though it is present in B). -/
theorem C2_counterexample :
    (mergeTranslations true [("k", TValue.str "x")] [("k", TValue.str "")]).removedKeys = 1 ∧
    ((flattenObject [("k", TValue.str "x")]).filter
        (fun kv => getF (flattenObject [("k", TValue.str "")]) kv.1 = none)).length = 0 := by
  decide

/-- C2 (amended): for every policy and every pair of trees,
`newKeys + unchangedKeys` equals the number of keys of `flatten(B)`, and
`removedKeys` equals the number of keys of `flatten(A)` whose entry in
`flatten(B)` is absent **or empty** (JS-falsy). -/
theorem C2_merge_stats (p : Bool) (A B : TData) :
    (mergeTranslations p A B).newKeys + (mergeTranslations p A B).unchangedKeys
        = (flattenObject B).length ∧
    (mergeTranslations p A B).removedKeys
        = ((flattenObject A).filter
            (fun kv => ¬ truthyF (flattenObject B) kv.1)).length := by
  have h1 := mergeLoop1_counts p (flattenObject A) (flattenObject B) [] 0 0
  have h2 := mergeLoop2_counts p (flattenObject B) (flattenObject A)
    (mergeLoop1 p (flattenObject A) (flattenObject B) [] 0 0).1 0
  constructor
  · show (mergeLoop1 p (flattenObject A) (flattenObject B) [] 0 0).2.1
        + (mergeLoop1 p (flattenObject A) (flattenObject B) [] 0 0).2.2 = _
    rw [h1.1, h1.2]
    simpa using length_filter_split (fun kv => truthyF (flattenObject A) kv.1) (flattenObject B)
  · show (mergeLoop2 p (flattenObject B) (flattenObject A)
        (mergeLoop1 p (flattenObject A) (flattenObject B) [] 0 0).1 0).2 = _
    rw [h2]
    simp

/-! ## Claim C7 -/

/-- C7 (counterexample): merging the tree `A = {"k": ""}` with itself
yields `newKeys = 1`, `removedKeys = 1`, `unchangedKeys = 0` instead of the
claimed `0 / 0 / size` — the empty-string value is falsy on both sides of
the merge. -/
theorem C7_counterexample :
    (mergeTranslations true [("k", TValue.str "")] [("k", TValue.str "")]).newKeys = 1 ∧
    (mergeTranslations true [("k", TValue.str "")] [("k", TValue.str "")]).removedKeys = 1 ∧
    (mergeTranslations true [("k", TValue.str "")] [("k", TValue.str "")]).unchangedKeys = 0 ∧
    (flattenObject [("k", TValue.str "")]).length = 1 := by
  decide

/-- C7 (amended): merging a tree with itself yields `newKeys = 0`,
`removedKeys = 0` and `unchangedKeys = size (flatten A)` provided every
flattened value of the tree is nonempty. -/
theorem C7_merge_idempotent (p : Bool) (A : TData)
    (h : ∀ kv ∈ flattenObject A, kv.2 ≠ "") :
    (mergeTranslations p A A).newKeys = 0 ∧
    (mergeTranslations p A A).removedKeys = 0 ∧
    (mergeTranslations p A A).unchangedKeys = (flattenObject A).length := by
  have hE : ((flattenObject A).map (·.1)).Nodup := by
    rw [← keysF_eq_map]; exact flattenObject_nodup A
  have hall : ∀ kv ∈ flattenObject A, truthyF (flattenObject A) kv.1 = true := by
    intro kv hkv
    refine (truthyF_true_iff _ _).mpr ⟨kv.2, ?_, h kv hkv⟩
    exact getF_of_mem_nodup _ _ _ (by rw [keysF_eq_map]; exact hE) hkv
  have hfilter : (flattenObject A).filter
      (fun kv => ¬ truthyF (flattenObject A) kv.1) = [] := by
    rw [List.filter_eq_nil_iff]
    intro kv hkv
    simp [hall kv hkv]
  have h1 := mergeLoop1_counts p (flattenObject A) (flattenObject A) [] 0 0
  have h2 := mergeLoop2_counts p (flattenObject A) (flattenObject A)
    (mergeLoop1 p (flattenObject A) (flattenObject A) [] 0 0).1 0
  refine ⟨?_, ?_, ?_⟩
  · show (mergeLoop1 p (flattenObject A) (flattenObject A) [] 0 0).2.1 = 0
    rw [h1.1, hfilter]
    rfl
  · show (mergeLoop2 p (flattenObject A) (flattenObject A)
        (mergeLoop1 p (flattenObject A) (flattenObject A) [] 0 0).1 0).2 = 0
    rw [h2, hfilter]
    rfl
  · show (mergeLoop1 p (flattenObject A) (flattenObject A) [] 0 0).2.2
        = (flattenObject A).length
    rw [h1.2]
    rw [List.filter_eq_self.mpr (fun kv hkv => hall kv hkv)]
    simp

/-- C7 (witness): the amended theorem applied at `A = {"a": "X"}`. -/
theorem C7_merge_idempotent_witness :
    (mergeTranslations true [("a", TValue.str "X")] [("a", TValue.str "X")]).newKeys = 0 ∧
    (mergeTranslations true [("a", TValue.str "X")] [("a", TValue.str "X")]).removedKeys = 0 ∧
    (mergeTranslations true [("a", TValue.str "X")] [("a", TValue.str "X")]).unchangedKeys
        = (flattenObject [("a", TValue.str "X")]).length :=
  C7_merge_idempotent true [("a", TValue.str "X")] (by decide)

/-! ## The dynamic program computes the textbook edit distance

`levN` is the standard recursive Levenshtein distance (insertion, deletion
and substitution all of cost 1); `rowOf` describes one matrix row in terms
of `levN`, and the bridge lemmas show the source's row-by-row dynamic
program computes exactly `levN` of the reversed inputs — which gives
symmetry of `calculateSimilarity`. -/

/-- Textbook Levenshtein distance by structural recursion. -/
def levN : List Char → List Char → Nat
  | [], ys => ys.length
  | _ :: xs, [] => xs.length + 1
  | x :: xs, y :: ys =>
    if x = y then levN xs ys
    else 1 + min (levN xs ys) (min (levN (x :: xs) ys) (levN xs (y :: ys)))
termination_by xs ys => xs.length + ys.length

/-- The matrix row whose cells are the distances from the processed prefix
of `b` (reversed: `brev`) to the successive prefixes of the remaining `a`
characters (`as`), each extended onto the processed reversed prefix
`arev`. -/
def rowOf (brev : List Char) : List Char → List Char → List Nat
  | arev, [] => [levN brev arev]
  | arev, ac :: as => levN brev arev :: rowOf brev (ac :: arev) as

theorem rowOf_head (brev arev as : List Char) :
    ∃ t, rowOf brev arev as = levN brev arev :: t := by
  cases as <;> exact ⟨_, rfl⟩

theorem levRow_spec (bc : Char) (brev : List Char) (as : List Char) :
    ∀ (arev : List Char),
      levRow bc as (levN (bc :: brev) arev) (rowOf brev arev as)
        = (rowOf (bc :: brev) arev as).tail := by
  induction as with
  | nil => intro arev; simp [levRow, rowOf]
  | cons ac as' ih =>
    intro arev
    obtain ⟨t, ht⟩ := rowOf_head brev (ac :: arev) as'
    rw [rowOf, ht, levRow]
    have hcur : (if bc = ac then levN brev arev
        else min (levN brev arev + 1)
          (min (levN (bc :: brev) arev + 1) (levN brev (ac :: arev) + 1)))
        = levN (bc :: brev) (ac :: arev) := by
      rw [levN]
      by_cases h : bc = ac
      · rw [if_pos h, if_pos h]
      · rw [if_neg h, if_neg h]
        omega
    rw [hcur, ← ht, ih (ac :: arev)]
    obtain ⟨t2, ht2⟩ := rowOf_head (bc :: brev) (ac :: arev) as'
    rw [rowOf, ht2]
    rfl

theorem levN_nil_right (xs : List Char) : levN xs [] = xs.length := by
  cases xs with
  | nil => rw [levN]
  | cons x xs => rw [levN]; rfl

theorem levLoop_spec (a : List Char) (bs : List Char) :
    ∀ (brev : List Char),
      levLoop a bs (brev.length + 1) (rowOf brev [] a)
        = rowOf (bs.reverse ++ brev) [] a := by
  induction bs with
  | nil => intro brev; rw [levLoop]; simp
  | cons bc bs' ih =>
    intro brev
    rw [levLoop]
    have hlen : levN (bc :: brev) [] = brev.length + 1 := by
      rw [levN_nil_right]; rfl
    have hstep : (brev.length + 1) :: levRow bc a (brev.length + 1) (rowOf brev [] a)
        = rowOf (bc :: brev) [] a := by
      rw [← hlen, levRow_spec bc brev a []]
      obtain ⟨t, htt⟩ := rowOf_head (bc :: brev) [] a
      rw [htt]
      rfl
    rw [hstep]
    have hi := ih (bc :: brev)
    have hl : (bc :: brev).length + 1 = brev.length + 1 + 1 := by simp
    rw [hl] at hi
    rw [hi]
    congr 1
    simp

theorem rowOf_nil_left (as : List Char) :
    ∀ (arev : List Char), rowOf [] arev as = List.range' arev.length (as.length + 1) := by
  induction as with
  | nil =>
    intro arev
    rw [rowOf, levN]
    rfl
  | cons ac as' ih =>
    intro arev
    rw [rowOf, levN, ih (ac :: arev)]
    have : (ac :: arev).length = arev.length + 1 := rfl
    rw [this, List.range'_succ]
    rfl

theorem rowOf_getLast? (brev : List Char) (as : List Char) :
    ∀ (arev : List Char),
      (rowOf brev arev as).getLast? = some (levN brev (as.reverse ++ arev)) := by
  induction as with
  | nil => intro arev; rw [rowOf]; rfl
  | cons ac as' ih =>
    intro arev
    obtain ⟨t, ht⟩ := rowOf_head brev (ac :: arev) as'
    rw [rowOf, ht, List.getLast?_cons_cons, ← ht, ih (ac :: arev)]
    congr 2
    simp

theorem levenshtein_eq_levN (a b : String) :
    levenshtein a b = levN b.data.reverse a.data.reverse := by
  unfold levenshtein
  have h0 : List.range (a.data.length + 1) = rowOf [] [] a.data := by
    rw [rowOf_nil_left, List.range_eq_range']
    rfl
  rw [h0]
  have h1 : levLoop a.data b.data 1 (rowOf [] [] a.data)
      = rowOf b.data.reverse [] a.data := by
    have := levLoop_spec a.data b.data []
    simpa using this
  rw [h1]
  rw [List.getLastD_eq_getLast?, rowOf_getLast? b.data.reverse a.data []]
  simp

theorem levN_comm : (xs ys : List Char) → levN xs ys = levN ys xs
  | [], [] => rfl
  | [], _ :: ys => by rw [levN, levN]; rfl
  | _ :: xs, [] => by rw [levN, levN]; rfl
  | x :: xs, y :: ys => by
    rw [levN, levN]
    by_cases h : x = y
    · rw [if_pos h, if_pos h.symm, levN_comm xs ys]
    · rw [if_neg h, if_neg (fun e => h e.symm)]
      rw [levN_comm xs ys, levN_comm (x :: xs) ys, levN_comm xs (y :: ys)]
      omega
termination_by xs ys => xs.length + ys.length

theorem levenshtein_comm (a b : String) : levenshtein a b = levenshtein b a := by
  rw [levenshtein_eq_levN, levenshtein_eq_levN, levN_comm]

/-! ## Claim C8 -/

/-- C8 (confirmed): `calculateSimilarity` is symmetric, and every string
has similarity `1.0` with itself. -/
theorem C8_calculateSimilarity_symm_self (a b : String) :
    calculateSimilarity a b = calculateSimilarity b a ∧ calculateSimilarity a a = 1 := by
  constructor
  · by_cases hab : a = b
    · rw [hab]
    · unfold calculateSimilarity
      rw [if_neg hab]
      by_cases hz : a.length = 0 ∨ b.length = 0
      · rw [if_pos hz, if_neg (fun e => hab e.symm), if_pos (hz.elim Or.inr Or.inl)]
      · rw [if_neg hz, if_neg (fun e => hab e.symm),
          if_neg (fun h => hz (h.elim Or.inr Or.inl))]
        rw [levenshtein_comm, max_comm]
  · unfold calculateSimilarity
    rw [if_pos rfl]

/-! ## Claim C6 -/

/-- C6 (confirmed): for any threshold at most 1, `lookupInMemory` returns
the **first** stored entry (in insertion order, restricted to the matching
language pair) whose normalized similarity meets or exceeds the threshold —
`List.find?` over the filtered entries, not a best-match search — with the
returned similarity equal to that entry's computed similarity; and an
exact normalized match has similarity `1.0` by the short-circuit first
branch of `calculateSimilarity` (no edit-distance matrix involved). -/
theorem C6_lookupInMemory_first_match (entries : List TMEntry)
    (text targetLang sourceLang : String) (θ : ℚ) (hθ : θ ≤ 1) :
    (lookupInMemory entries text targetLang sourceLang θ
      = ((entries.filter
            (fun e => e.sourceLang = sourceLang ∧ e.targetLang = targetLang)).find?
          (fun e => calculateSimilarity (normalizeJS text) (normalizeJS e.source) ≥ θ)).map
        (fun e => ⟨e.target, calculateSimilarity (normalizeJS text) (normalizeJS e.source)⟩)) ∧
    (∀ s : String, normalizeJS s = normalizeJS text →
      calculateSimilarity (normalizeJS text) (normalizeJS s) = 1) := by
  constructor
  · unfold lookupInMemory
    induction entries with
    | nil => rfl
    | cons e rest ih =>
      by_cases hl : e.sourceLang = sourceLang ∧ e.targetLang = targetLang
      · by_cases hex : normalizeJS e.source = normalizeJS text
        · have hsim1 : calculateSimilarity (normalizeJS text) (normalizeJS e.source) = 1 := by
            unfold calculateSimilarity
            rw [if_pos hex.symm]
          simp only [lookupGo]
          rw [if_pos hl, if_pos hex, List.filter_cons, if_pos (by simpa using hl)]
          rw [List.find?_cons_of_pos _ (by rw [hsim1]; simpa using hθ)]
          simp [hsim1]
        · by_cases hsim : calculateSimilarity (normalizeJS text) (normalizeJS e.source) ≥ θ
          · simp only [lookupGo]
            rw [if_pos hl, if_neg hex, if_pos hsim, List.filter_cons,
              if_pos (by simpa using hl)]
            rw [List.find?_cons_of_pos _ (by simpa using hsim)]
            rfl
          · simp only [lookupGo]
            rw [if_pos hl, if_neg hex, if_neg hsim, List.filter_cons,
              if_pos (by simpa using hl)]
            rw [List.find?_cons_of_neg _ (by simpa using hsim)]
            exact ih
      · simp only [lookupGo]
        rw [if_neg hl, List.filter_cons, if_neg (by simpa using hl)]
        exact ih
  · intro s hs
    unfold calculateSimilarity
    rw [if_pos hs.symm]

/-- C6 (witness): with stored entries `("hello world" → "T1")` then
`("hello wrld" → "T2")` for (en→de) and query `"hello wrld"` at the default
threshold `0.85`, the lookup returns the first entry (similarity 10/11),
not the later exact match. -/
theorem C6_lookupInMemory_first_match_witness :
    lookupInMemory
        [⟨"hello world", "T1", "en", "de", "deepl", 0⟩,
         ⟨"hello wrld", "T2", "en", "de", "deepl", 0⟩]
        "hello wrld" "de" "en" (85/100)
      = some ⟨"T1", 10/11⟩ := by
  have h := C6_lookupInMemory_first_match
    [⟨"hello world", "T1", "en", "de", "deepl", 0⟩,
     ⟨"hello wrld", "T2", "en", "de", "deepl", 0⟩]
    "hello wrld" "de" "en" (85/100) (by norm_num)
  have hn1 : normalizeJS "hello wrld" = "hello wrld" := by decide
  have hn2 : normalizeJS "hello world" = "hello world" := by decide
  have hlev : levenshtein "hello wrld" "hello world" = 1 := by decide
  have hlen1 : "hello wrld".length = 10 := rfl
  have hlen2 : "hello world".length = 11 := rfl
  have hsim : calculateSimilarity "hello wrld" "hello world" = 10/11 := by
    unfold calculateSimilarity
    rw [if_neg (by decide), if_neg (by decide), hlev, hlen1, hlen2]
    rw [max_eq_right (by norm_num : ((10 : Nat) : ℚ) ≤ ((11 : Nat) : ℚ))]
    norm_num
  rw [h.1]
  rw [List.filter_cons, if_pos (by decide), List.filter_cons, if_pos (by decide),
    List.filter_nil]
  rw [List.find?_cons_of_pos _ (by rw [hn1, hn2, hsim]; norm_num)]
  simp [hn1, hn2, hsim]

/-! ## Claim C3 -/

theorem spliceTranslations_getF_notmem (translations : String → Option BatchResult)
    (l : List (String × String)) :
    ∀ (res : FlatMap) (k : String), k ∉ l.map (·.1) →
      getF (spliceTranslations translations l res) k = getF res k := by
  induction l with
  | nil => intro res k _; rw [spliceTranslations]
  | cons kv rest ih =>
    intro res k hk
    rcases kv with ⟨key, value⟩
    simp only [List.map_cons, List.mem_cons] at hk
    push_neg at hk
    rw [spliceTranslations]
    rcases htr : translations value with _ | tr
    · simp only [htr]
      rw [ih _ _ hk.2, getF_setF_ne _ _ _ _ hk.1]
    · simp only [htr]
      by_cases hok : tr.success && truthyOpt tr.text
      · rw [if_pos hok, ih _ _ hk.2, getF_setF_ne _ _ _ _ hk.1]
      · rw [if_neg hok, ih _ _ hk.2, getF_setF_ne _ _ _ _ hk.1]

theorem spliceTranslations_getF_fail (translations : String → Option BatchResult)
    (l : List (String × String)) :
    ∀ (res : FlatMap) (k v : String), (l.map (·.1)).Nodup → (k, v) ∈ l →
      (∀ tr, translations v = some tr → ¬(tr.success = true ∧ truthyOpt tr.text = true)) →
      getF (spliceTranslations translations l res) k = some v := by
  induction l with
  | nil => intro res k v _ h _; simp at h
  | cons kv rest ih =>
    intro res k v hnd hmem hfail
    rcases kv with ⟨key, value⟩
    simp only [List.map_cons, List.nodup_cons] at hnd
    rcases List.mem_cons.mp hmem with h | h
    · rcases Prod.mk.injEq .. ▸ h with ⟨hk, hv⟩
      have hnotin : k ∉ rest.map (·.1) := by rw [hk]; exact hnd.1
      rw [spliceTranslations]
      rcases htr : translations value with _ | tr
      · simp only [htr]
        rw [spliceTranslations_getF_notmem _ _ _ _ hnotin, hk, hv, getF_setF_self]
      · have htr' : translations v = some tr := by rw [hv]; exact htr
        have hbad : ¬ (tr.success && truthyOpt tr.text) = true := by
          intro hb
          exact hfail tr htr' (by simpa using hb)
        simp only [htr]
        rw [if_neg hbad, spliceTranslations_getF_notmem _ _ _ _ hnotin, hk, hv, getF_setF_self]
    · rw [spliceTranslations]
      rcases htr : translations value with _ | tr
      · simp only [htr]
        exact ih _ _ _ hnd.2 h hfail
      · simp only [htr]
        by_cases hok : tr.success && truthyOpt tr.text
        · rw [if_pos hok]; exact ih _ _ _ hnd.2 h hfail
        · rw [if_neg hok]; exact ih _ _ _ hnd.2 h hfail

/-- C3 (counterexample): for source `{"k": "x"}` and existing target
`{"k": ""}` the key is present in the target with value `""`, which is
neither absent nor byte-identical to the source value `"x"`, yet the key
is submitted for backend translation — `!flatTarget[key]` treats the
falsy empty string as missing. -/
theorem C3_counterexample :
    ("k", "x") ∈ keysToTranslate (flattenObject [("k", TValue.str "x")])
        (flattenObject [("k", TValue.str "")]) ∧
    getF (flattenObject [("k", TValue.str "")]) "k" = some "" ∧
    ("" : String) ≠ "x" := by
  decide

/-- C3 (amended): with a configured translation service, a key is
submitted for backend translation iff it is a source key whose existing
target value is absent, **empty**, or byte-identical to the source value;
every key not submitted keeps its existing target value unchanged; and
every submitted key whose batch entry is missing, failed, or has a falsy
text falls back to the original source value. -/
theorem C3_translateMissingKeys (service : String)
    (translations : String → Option BatchResult)
    (sourceData existingTarget : TData) (hsvc : service ≠ "none") :
    (∀ k v, (k, v) ∈ keysToTranslate (flattenObject sourceData) (flattenObject existingTarget)
        ↔ ((k, v) ∈ flattenObject sourceData ∧
            (getF (flattenObject existingTarget) k = none ∨
             getF (flattenObject existingTarget) k = some "" ∨
             getF (flattenObject existingTarget) k = some v))) ∧
    (∀ k, k ∉ (keysToTranslate (flattenObject sourceData)
          (flattenObject existingTarget)).map (·.1) →
        getF (translateMissingKeys service translations sourceData existingTarget) k
          = getF (flattenObject existingTarget) k) ∧
    (∀ k v, (k, v) ∈ keysToTranslate (flattenObject sourceData) (flattenObject existingTarget) →
        (∀ tr, translations v = some tr → ¬(tr.success = true ∧ truthyOpt tr.text = true)) →
        getF (translateMissingKeys service translations sourceData existingTarget) k
          = some v) := by
  have hndS : ((flattenObject sourceData).map (·.1)).Nodup := by
    rw [← keysF_eq_map]; exact flattenObject_nodup sourceData
  have hndK : ((keysToTranslate (flattenObject sourceData)
      (flattenObject existingTarget)).map (·.1)).Nodup := by
    unfold keysToTranslate
    exact ((List.filter_sublist _).map _).nodup hndS
  refine ⟨?_, ?_, ?_⟩
  · intro k v
    unfold keysToTranslate
    rw [List.mem_filter]
    constructor
    · rintro ⟨hmem, hp⟩
      refine ⟨hmem, ?_⟩
      unfold needsTranslation at hp
      rcases Bool.or_eq_true .. |>.mp hp with hp | hp
      · rcases (truthyF_false_iff _ k).mp (by simpa using hp) with h | h
        · exact Or.inl h
        · exact Or.inr (Or.inl h)
      · exact Or.inr (Or.inr (by simpa using hp))
    · rintro ⟨hmem, hcond⟩
      refine ⟨hmem, ?_⟩
      unfold needsTranslation
      rcases hcond with h | h | h
      · have : truthyF (flattenObject existingTarget) k = false :=
          (truthyF_false_iff _ k).mpr (Or.inl h)
        simp [this]
      · have : truthyF (flattenObject existingTarget) k = false :=
          (truthyF_false_iff _ k).mpr (Or.inr h)
        simp [this]
      · simp [h]
  · intro k hk
    unfold translateMissingKeys
    by_cases hempty : keysToTranslate (flattenObject sourceData)
        (flattenObject existingTarget) = []
    · rw [if_pos hempty]
    · rw [if_neg hempty, if_pos hsvc]
      exact spliceTranslations_getF_notmem _ _ _ _ hk
  · intro k v hmem hfail
    unfold translateMissingKeys
    have hempty : ¬ keysToTranslate (flattenObject sourceData)
        (flattenObject existingTarget) = [] := by
      intro he
      rw [he] at hmem
      simp at hmem
    rw [if_neg hempty, if_pos hsvc]
    exact spliceTranslations_getF_fail _ _ _ _ _ hndK hmem hfail

/-- C3 (witness): the amended theorem applied with source `{"a": "s"}`,
empty existing target and an empty batch-result map — the key is submitted
and falls back to the source value. -/
theorem C3_translateMissingKeys_witness :
    getF (translateMissingKeys "deepl" (fun _ => none) [("a", TValue.str "s")] []) "a"
      = some "s" :=
  (C3_translateMissingKeys "deepl" (fun _ => none) [("a", TValue.str "s")] []
      (by decide)).2.2 "a" "s" (by decide) (fun tr h => by simp at h)

/-! ## Claim C4 -/

/-- C4 (code bug): `translateToMorse` destroys interpolation tokens.  For
the input `"{name}"` the token is protected as `` `\x000\x00` ``, but the
character loop then morse-encodes the index digit (`'0'` is in
`MORSE_CODE`), producing `` `\x00 ----- \x00` `` — so the restore pattern
`` `\x00 0 \x00` `` never matches, the placeholder garbage stays in the
output, and the token `"{name}"` does not appear in it at all, although
the span-protection scaffolding of the function plainly intends it to be
spliced back verbatim. -/
theorem C4_translateToMorse_token_destroyed :
    translateToMorse "{name}" = "\x00 ----- \x00" ∧
    ¬ ("{name}".data <:+: (translateToMorse "{name}").data) := by
  decide

/-! ## Claim C9 -/

/-- C9 (counterexample): HTTP 502 is a 5xx status, but `handleApiError`
only maps 500 and 503 to the service-unavailable message; 502 falls into
the default branch and produces the generic passthrough message. -/
theorem C9_counterexample :
    handleApiError ⟨true, some ⟨502, none, none⟩, true, none⟩ "deepl"
        = "DEEPL error: 502" ∧
    handleApiError ⟨true, some ⟨502, none, none⟩, true, none⟩ "deepl"
        ≠ "DEEPL service temporarily unavailable" := by
  decide

/-- C9 (amended): for every axios error with a response, status 401/403 is
classified as an invalid/expired credential, 429 as rate-limited, 456 as
quota exceeded, exactly 500 and 503 (not every 5xx) as service
unavailable, and every other status passes through the backend's own
message (`data.message`, then `data.error.message`, then a generic
`error: <status>` text); an axios error with a request but no response is
classified as a network error. -/
theorem C9_handleApiError_classification (service : String) (r : ApiResponse)
    (hasReq : Bool) (msg : Option String) :
    (r.status = 401 ∨ r.status = 403 →
        handleApiError ⟨true, some r, hasReq, msg⟩ service
          = toUpperJS service ++ " API key is invalid or expired") ∧
    (r.status = 429 →
        handleApiError ⟨true, some r, hasReq, msg⟩ service
          = toUpperJS service ++ " rate limit exceeded. Please try again later.") ∧
    (r.status = 456 →
        handleApiError ⟨true, some r, hasReq, msg⟩ service
          = toUpperJS service ++ " quota exceeded. Please check your plan limits.") ∧
    (r.status = 500 ∨ r.status = 503 →
        handleApiError ⟨true, some r, hasReq, msg⟩ service
          = toUpperJS service ++ " service temporarily unavailable") ∧
    (r.status ≠ 401 → r.status ≠ 403 → r.status ≠ 429 → r.status ≠ 456 →
        r.status ≠ 500 → r.status ≠ 503 →
        handleApiError ⟨true, some r, hasReq, msg⟩ service
          = (if truthyOpt r.dataMessage then r.dataMessage.getD ""
             else if truthyOpt r.dataErrorMessage then r.dataErrorMessage.getD ""
             else toUpperJS service ++ " error: " ++ toString r.status)) ∧
    (handleApiError ⟨true, none, true, msg⟩ service
        = "Network error: Unable to reach " ++ toUpperJS service ++ " API") := by
  refine ⟨?_, ?_, ?_, ?_, ?_, ?_⟩
  · intro h
    simp [handleApiError, h]
  · intro h
    simp [handleApiError, h]
  · intro h
    simp [handleApiError, h]
  · intro h
    rcases h with h | h <;> simp [handleApiError, h]
  · intro h1 h2 h3 h4 h5 h6
    simp [handleApiError, h1, h2, h3, h4, h5, h6]
  · simp [handleApiError]

/-- C9 (witness): the amended classification applied at a concrete 403
response for the deepl backend. -/
theorem C9_handleApiError_classification_witness :
    handleApiError ⟨true, some ⟨403, none, none⟩, true, none⟩ "deepl"
      = toUpperJS "deepl" ++ " API key is invalid or expired" :=
  (C9_handleApiError_classification "deepl" ⟨403, none, none⟩ true none).1 (Or.inr rfl)

/-! ## Claim C5 -/

set_option maxRecDepth 4000 in
/-- C5 (counterexample): a translation-memory match with similarity
exactly `0.95` (edit distance 1 on 20-character strings: `19/20`).  The
lookup returns it, `19/20 ≥ 0.95` holds, yet `translate` still dispatches
to the backend and returns the backend's text — the gate tests strict
`> 0.95`, so a similarity of exactly `0.95` is **not** accepted. -/
theorem C5_counterexample :
    lookupInMemory [⟨"abcdefghijklmnopqrst", "ZIEL", "en", "de", "deepl", 0⟩]
        "abcdefghijklmnopqrsu" "de" "en" (85/100) = some ⟨"ZIEL", 19/20⟩ ∧
    (19/20 : ℚ) ≥ 95/100 ∧
    (translate "deepl" "en" "" (fun _ _ => Except.ok "BK") 0
        "abcdefghijklmnopqrsu" "de" none
        ⟨[], [⟨"abcdefghijklmnopqrst", "ZIEL", "en", "de", "deepl", 0⟩]⟩).backendCalled
      = true ∧
    (translate "deepl" "en" "" (fun _ _ => Except.ok "BK") 0
        "abcdefghijklmnopqrsu" "de" none
        ⟨[], [⟨"abcdefghijklmnopqrst", "ZIEL", "en", "de", "deepl", 0⟩]⟩).result.text
      = some "BK" := by
  have hres : resolveSource "en" none = "en" := rfl
  have hn1 : normalizeJS "abcdefghijklmnopqrsu" = "abcdefghijklmnopqrsu" := by decide
  have hn2 : normalizeJS "abcdefghijklmnopqrst" = "abcdefghijklmnopqrst" := by decide
  have hlev : levenshtein "abcdefghijklmnopqrsu" "abcdefghijklmnopqrst" = 1 := by decide
  have hlen1 : "abcdefghijklmnopqrsu".length = 20 := rfl
  have hlen2 : "abcdefghijklmnopqrst".length = 20 := rfl
  have hsim : calculateSimilarity "abcdefghijklmnopqrsu" "abcdefghijklmnopqrst" = 19/20 := by
    unfold calculateSimilarity
    rw [if_neg (by decide), if_neg (by decide), hlev, hlen1, hlen2]
    rw [max_self]
    norm_num
  have hlookup : lookupInMemory [⟨"abcdefghijklmnopqrst", "ZIEL", "en", "de", "deepl", 0⟩]
      "abcdefghijklmnopqrsu" "de" "en" (85/100) = some ⟨"ZIEL", 19/20⟩ := by
    unfold lookupInMemory
    rw [lookupGo]
    rw [if_pos ⟨rfl, rfl⟩, if_neg (by rw [hn1, hn2]; decide)]
    rw [hn1, hn2, hsim]
    rw [if_pos (by norm_num)]
  refine ⟨hlookup, by norm_num, ?_, ?_⟩ <;>
  · simp only [translate, hres]
    rw [if_neg (by decide), if_neg (by decide), hlookup]
    dsimp only
    rw [if_neg (show ¬((19 : ℚ)/20 > 95/100) by norm_num)]
    rfl

/-- C5 (amended): in `translate`, after a session-cache miss and with
distinct source and target languages, a translation-memory match is
accepted and returned without dispatching to the backend iff its
similarity is **strictly greater than** `0.95`; a match with similarity at
most `0.95` (including exactly `0.95`) never suppresses the backend call —
the backend is dispatched whenever the effective service is recognized. -/
theorem C5_memory_gate (translationService sourceLanguage extendedService : String)
    (backend : String → String → Except String String) (now : Nat)
    (text targetLanguage : String) (sourceParam : Option String) (st : TransState)
    (hcache : truthyOpt ((getCache st.cache
        (resolveSource sourceLanguage sourceParam ++ ":" ++ text)).bind
        (fun m => getF m targetLanguage)) = false)
    (hsrc : resolveSource sourceLanguage sourceParam ≠ targetLanguage)
    (m : LookupHit)
    (hmem : lookupInMemory st.memory text targetLanguage
        (resolveSource sourceLanguage sourceParam) (85/100) = some m) :
    (m.similarity > 95/100 →
        translate translationService sourceLanguage extendedService backend now
            text targetLanguage sourceParam st
          = ⟨⟨true, some m.translation, none, translationService, true⟩,
             ⟨cacheWrite st.cache (resolveSource sourceLanguage sourceParam ++ ":" ++ text)
                targetLanguage m.translation, st.memory⟩, false⟩) ∧
    (¬ m.similarity > 95/100 →
        (if extendedService ≠ "" then extendedService else translationService)
            ∈ validServices →
        (translate translationService sourceLanguage extendedService backend now
            text targetLanguage sourceParam st).backendCalled = true) := by
  constructor
  · intro hgt
    simp only [translate]
    rw [if_neg (by simp [hcache]), if_neg hsrc, hmem]
    dsimp only
    rw [if_pos hgt]
  · intro hle hvalid
    simp only [translate]
    rw [if_neg (by simp [hcache]), if_neg hsrc, hmem]
    dsimp only
    rw [if_neg hle]
    simp only [dispatchBackend]
    rw [if_pos hvalid]
    rcases backend (if extendedService ≠ "" then extendedService else translationService)
        text with msg | res <;> rfl

/-- C5 (witness): the amended gate applied at a concrete state with an
exact memory match (similarity 1 > 0.95): the memory translation is
returned and the backend is not called. -/
theorem C5_memory_gate_witness :
    translate "deepl" "en" "" (fun _ _ => Except.ok "BK") 0 "hi" "de" none
        ⟨[], [⟨"hi", "T", "en", "de", "deepl", 0⟩]⟩
      = ⟨⟨true, some "T", none, "deepl", true⟩,
         ⟨cacheWrite [] ("en" ++ ":" ++ "hi") "de" "T",
          [⟨"hi", "T", "en", "de", "deepl", 0⟩]⟩, false⟩ :=
  (C5_memory_gate "deepl" "en" "" (fun _ _ => Except.ok "BK") 0 "hi" "de" none
      ⟨[], [⟨"hi", "T", "en", "de", "deepl", 0⟩]⟩
      (by decide) (by decide) ⟨"T", 1⟩ (by decide)).1 (by norm_num)

/-! ## Claim C10 -/

theorem dispatchBackend_state_of_fail (translationService service : String)
    (backend : String → String → Except String String) (now : Nat)
    (text targetLanguage source cacheKey : String) (st : TransState) :
    (dispatchBackend translationService service backend now
        text targetLanguage source cacheKey st).result.success = false →
    (dispatchBackend translationService service backend now
        text targetLanguage source cacheKey st).state = st := by
  simp only [dispatchBackend]
  split
  · split
    · intro h; simp at h
    · intro _; rfl
  · intro _; rfl

/-- C10 (confirmed): whenever `translate` returns a failed result, the
session cache and the in-memory translation memory are exactly as before
the call — the write-through to cache and memory happens only after a
successful backend result, and both failure exits (unrecognized service,
thrown backend error) return the state untouched. -/
theorem C10_translate_failure_no_write (translationService sourceLanguage extendedService : String)
    (backend : String → String → Except String String) (now : Nat)
    (text targetLanguage : String) (sourceParam : Option String) (st : TransState) :
    (translate translationService sourceLanguage extendedService backend now
        text targetLanguage sourceParam st).result.success = false →
    (translate translationService sourceLanguage extendedService backend now
        text targetLanguage sourceParam st).state = st := by
  simp only [translate]
  split
  · intro h; simp at h
  · split
    · intro h; simp at h
    · split
      · split
        · intro h; simp at h
        · exact dispatchBackend_state_of_fail _ _ _ _ _ _ _ _ _
      · exact dispatchBackend_state_of_fail _ _ _ _ _ _ _ _ _

/-- C10 (witness): a failing call (unconfigured service) leaves the empty
state unchanged. -/
theorem C10_translate_failure_no_write_witness :
    (translate "nope" "en" "" (fun _ _ => Except.error "boom") 0 "t" "de" none
        ⟨[], []⟩).result.success = false ∧
    (translate "nope" "en" "" (fun _ _ => Except.error "boom") 0 "t" "de" none
        ⟨[], []⟩).state = ⟨[], []⟩ :=
  ⟨by decide,
   C10_translate_failure_no_write "nope" "en" "" (fun _ _ => Except.error "boom") 0
     "t" "de" none ⟨[], []⟩ (by decide)⟩

end Multilingual
